import Mathlib

/-!
Verification development for the browser audio-visualizer client of the
Audio-Visualizer-For-OBS repository.

The embedding models the byte-level AVF1 wire-frame decoder `parseAVF1` and the
WebSocket client of `src/static/js/ws_client.js`, the FFT-size inference of the
tunnel visualizer (`src/unnamed/part_002`, `TunnelWarpWebGL.onFrame`), and the
visualizer registry of `src/static/js/visualizers/registry.js`.

Modelling conventions:
* An `ArrayBuffer` is a `List Nat` of bytes; reads reduce each entry `% 256`,
  so on genuine byte buffers (entries `< 256`) the model is exact.
* IEEE-754 float32/float64 values are represented by their bit patterns
  (`Nat < 2^32` resp. `< 2^64`).  `DataView.getFloat32`/`getFloat64` with
  little-endian flag, and `Float32Array` views, are bijections between byte
  quadruples/octuples and bit patterns, so field equality of decoded floats is
  exactly equality of bit patterns.  `Number.isNaN` on a float64 widened from a
  float32 holds iff the float32 pattern has exponent bits all ones and a
  nonzero mantissa, which `isNaN32` decides on the pattern.
* Fallible operations (out-of-range `DataView` reads, misaligned or
  out-of-range typed-array views, the `bad magic` throw) return `none`.
-/

namespace AVF

/-- Little-endian assembly of a byte list into a natural number; each entry is
reduced mod 256, matching how an `ArrayBuffer` stores only bytes. -/
def lePack : List Nat → Nat
  | [] => 0
  | b :: bs => b % 256 + 256 * lePack bs

/-- Model of reading `n` consecutive bytes of `buf` starting at byte offset
`off`; `none` is the `RangeError` a `DataView` read throws past the end. -/
def readBytes (buf : List Nat) (off n : Nat) : Option (List Nat) :=
  if off + n ≤ buf.length then some ((buf.drop off).take n) else none

/-- Model of `DataView.getUint8/getUint16/getUint32/getFloat64` (little-endian):
read `n` bytes at `off` and assemble them little-endian.  Float reads return
the bit pattern of the value. -/
def getUintLE (buf : List Nat) (off n : Nat) : Option Nat :=
  (readBytes buf off n).map lePack

/-- Whether a float32 bit pattern is a NaN: exponent bits (30..23) all set and
mantissa (22..0) nonzero.  `Number.isNaN(dv.getFloat32(...))` holds exactly on
these patterns. -/
def isNaN32 (w : Nat) : Bool :=
  decide ((w / 2 ^ 23) % 256 = 255) && decide (w % 2 ^ 23 ≠ 0)

/-- Magic check of `parseAVF1`: bytes 0..3 must read as the ASCII codes of
`AVF1` (65, 86, 70, 49).  A buffer shorter than 4 bytes makes `getUint8`
throw, which the decoder also surfaces as failure. -/
def magicOk (buf : List Nat) : Bool :=
  match getUintLE buf 0 1, getUintLE buf 1 1, getUintLE buf 2 1, getUintLE buf 3 1 with
  | some 65, some 86, some 70, some 49 => true
  | _, _, _, _ => false

/-- Group a byte list into little-endian 32-bit words, dropping a trailing
incomplete group; used to read a `Float32Array` view as bit patterns. -/
def packWords4 : List Nat → List Nat
  | b0 :: b1 :: b2 :: b3 :: rest => lePack [b0, b1, b2, b3] :: packWords4 rest
  | _ => []

/-- Model of `new Float32Array(buf, off, len)`: requires 4-byte alignment of
`off` and `off + 4 * len ≤ buf.byteLength` (otherwise a `RangeError`), and
denotes the `len` little-endian 32-bit patterns starting at `off`. -/
def float32View (buf : List Nat) (off len : Nat) : Option (List Nat) :=
  if off % 4 = 0 then (readBytes buf off (4 * len)).map packWords4 else none

/-- Model of the `for` loops of `parseAVF1` that push `n` successive
`getFloat32` reads (4 bytes apart, starting at `off`) into an array. -/
def readF32s (buf : List Nat) (off : Nat) : Nat → Option (List Nat)
  | 0 => some []
  | n + 1 =>
    match getUintLE buf off 4, readF32s buf (off + 4) n with
    | some w, some ws => some (w :: ws)
    | _, _ => none

/-- Byte offset of the `rms` block: the fixed 24-byte header
(4 magic + 4 frameId + 8 timestamp + 2 channels + 2 tdLen + 2 spLen
+ 2 reserved) comes first. -/
def rmsOffset : Nat := 24

/-- Byte offset of the `peak` block after `c` float32 rms values. -/
def peakOffset (c : Nat) : Nat := 24 + 4 * c

/-- Byte offset of the float32 correlation after the rms and peak blocks. -/
def corrOffset (c : Nat) : Nat := 24 + 8 * c

/-- Byte offset of the interleaved time-domain `Float32Array` view. -/
def tdOffset (c : Nat) : Nat := 28 + 8 * c

/-- Byte offset of the spectrum `Float32Array` view. -/
def spOffset (c td : Nat) : Nat := 28 + 8 * c + 4 * (td * c)

/-- Total byte size of a wire frame with `c` channels, `td` time-domain samples
per channel and `sp` spectrum bins. -/
def totalSize (c td sp : Nat) : Nat := spOffset c td + 4 * sp

/-- Decoded frame object returned by `parseAVF1`: float fields are bit
patterns, `corr = none` models the `null` produced for a NaN correlation. -/
structure AVFrame where
  frameId : Nat
  ts : Nat
  channels : Nat
  rms : List Nat
  peak : List Nat
  corr : Option Nat
  timeDomain : List Nat
  spectrum : List Nat
  deriving DecidableEq, Repr

/-- Shallow embedding of `parseAVF1` from `src/static/js/ws_client.js`.  The
running `off` cursor of the source is value-independent, so each read happens
at the offset determined by the header counts alone; the reserved uint16 at
offset 22 is skipped (`off += 2`) without being read.  Any thrown
`RangeError`/`bad magic` error is `none`. -/
def parseAVF1 (buf : List Nat) : Option AVFrame :=
  if magicOk buf = true then
    match getUintLE buf 4 4, getUintLE buf 8 8, getUintLE buf 16 2,
          getUintLE buf 18 2, getUintLE buf 20 2 with
    | some frameId, some ts, some channels, some tdLen, some spLen =>
      match readF32s buf rmsOffset channels,
            readF32s buf (peakOffset channels) channels,
            getUintLE buf (corrOffset channels) 4,
            float32View buf (tdOffset channels) (tdLen * channels),
            float32View buf (spOffset channels tdLen) spLen with
      | some rms, some peak, some corrW, some timeDomain, some spectrum =>
        some { frameId := frameId, ts := ts, channels := channels,
               rms := rms, peak := peak,
               corr := if isNaN32 corrW then none else some corrW,
               timeDomain := timeDomain, spectrum := spectrum }
      | _, _, _, _, _ => none
    | _, _, _, _, _ => none
  else none

/-- Little-endian byte encoding of `w` on `n` bytes (least significant first),
as prescribed for every numeric field by the section-6 wire table. -/
def bytesLE : Nat → Nat → List Nat
  | 0, _ => []
  | n + 1, w => w % 256 :: bytesLE n (w / 256)

/-- Concatenated little-endian float32 encodings of a list of bit patterns. -/
def f32s : List Nat → List Nat
  | [] => []
  | w :: ws => bytesLE 4 w ++ f32s ws

/-- A wire frame as laid out by the section-6 table: header fields, per-channel
rms and peak, correlation, interleaved time-domain samples and spectrum, with
every float given by its bit pattern. -/
structure WireFrame where
  frameId : Nat
  ts : Nat
  channels : Nat
  tdLen : Nat
  spLen : Nat
  reserved : Nat
  rms : List Nat
  peak : List Nat
  corr : Nat
  timeDomain : List Nat
  spectrum : List Nat
  deriving DecidableEq, Repr

/-- The 24-byte header of the section-6 wire table: ASCII magic `AVF1`, uint32
frameId, float64 timestamp, uint16 channels, uint16 timeDomainLen, uint16
spectrumLen, uint16 reserved, all little-endian. -/
def headerBytes (w : WireFrame) : List Nat :=
  [65, 86, 70, 49] ++ bytesLE 4 w.frameId ++ bytesLE 8 w.ts ++
    bytesLE 2 w.channels ++ bytesLE 2 w.tdLen ++ bytesLE 2 w.spLen ++
    bytesLE 2 w.reserved

/-- Byte layout of the section-6 wire table for a `WireFrame`: the header,
then C rms float32s, C peak float32s, one correlation float32, the
interleaved time-domain float32s and the spectrum float32s. -/
def encodeWire (w : WireFrame) : List Nat :=
  headerBytes w ++ f32s w.rms ++ f32s w.peak ++ bytesLE 4 w.corr ++
    f32s w.timeDomain ++ f32s w.spectrum

/-- Well-formedness of a `WireFrame`: every field fits its fixed-width slot and
the variable-length blocks have the lengths announced in the header. -/
abbrev wireWF (w : WireFrame) : Prop :=
  w.frameId < 2 ^ 32 ∧ w.ts < 2 ^ 64 ∧ w.channels < 2 ^ 16 ∧
    w.tdLen < 2 ^ 16 ∧ w.spLen < 2 ^ 16 ∧ w.reserved < 2 ^ 16 ∧
    w.rms.length = w.channels ∧ (∀ x ∈ w.rms, x < 2 ^ 32) ∧
    w.peak.length = w.channels ∧ (∀ x ∈ w.peak, x < 2 ^ 32) ∧
    w.corr < 2 ^ 32 ∧
    w.timeDomain.length = w.tdLen * w.channels ∧
    (∀ x ∈ w.timeDomain, x < 2 ^ 32) ∧
    w.spectrum.length = w.spLen ∧ (∀ x ∈ w.spectrum, x < 2 ^ 32)

/-- An `AnalysisSnapshot` as in section 3 of the spec: sequence id, capture
timestamp, channel count, per-channel metrics, correlation, transport
time-domain window and spectrum (floats as bit patterns; the correlation is
the NaN sentinel pattern when undefined). -/
structure AnalysisSnapshot where
  frameId : Nat
  ts : Nat
  channels : Nat
  tdLen : Nat
  spLen : Nat
  rms : List Nat
  peak : List Nat
  corr : Nat
  timeDomain : List Nat
  spectrum : List Nat
  deriving DecidableEq, Repr

/-- The wire frame the section-6 encoding produces for a snapshot: same fields
with the reserved slot set to zero, as the table requires. -/
def snapToWire (s : AnalysisSnapshot) : WireFrame :=
  { frameId := s.frameId, ts := s.ts, channels := s.channels,
    tdLen := s.tdLen, spLen := s.spLen, reserved := 0,
    rms := s.rms, peak := s.peak, corr := s.corr,
    timeDomain := s.timeDomain, spectrum := s.spectrum }

/-- Section-6 encoding of an `AnalysisSnapshot` into wire bytes. -/
def encodeSnapshot (s : AnalysisSnapshot) : List Nat :=
  encodeWire (snapToWire s)

/-- Well-formedness of a snapshot for transport: channel count at least 1 and
every field within its wire slot. -/
abbrev snapWF (s : AnalysisSnapshot) : Prop :=
  1 ≤ s.channels ∧ wireWF (snapToWire s)

/-! WebSocket client of `connectAudioWS`.  The relevant mutable state is the
pair of closure variables `alive` and `retryMs`; the events that touch them
are the `onopen` handler, the `onclose` handler and `stop()`. -/

/-- Events acting on the `connectAudioWS` closure state. -/
inductive WSEvent where
  | opened
  | closed
  | stopped
  deriving DecidableEq, Repr

/-- Closure state of `connectAudioWS`: the `alive` flag and the current
`retryMs` backoff value. -/
structure WSState where
  alive : Bool
  retryMs : Nat
  deriving DecidableEq, Repr

/-- State right after `connectAudioWS` is entered: `alive = true`,
`retryMs = 500`. -/
def initState : WSState := { alive := true, retryMs := 500 }

/-- One event step of the client.  The second component is the reconnect the
handler schedules, carrying the `setTimeout` delay: `onclose` while alive
schedules `connect` with the current `retryMs` and then updates
`retryMs = min(5000, floor(retryMs * 1.5))` (exact on integers as
`retryMs * 3 / 2` in truncating division); `onopen` resets `retryMs` to 500;
`stop()` clears `alive`.  No other event schedules anything. -/
def step : WSState → WSEvent → WSState × Option Nat
  | s, WSEvent.opened => ({ s with retryMs := 500 }, none)
  | s, WSEvent.closed =>
    if s.alive then
      ({ s with retryMs := min 5000 (s.retryMs * 3 / 2) }, some s.retryMs)
    else (s, none)
  | s, WSEvent.stopped => ({ s with alive := false }, none)

/-- Run a sequence of events from a state. -/
def run (s : WSState) : List WSEvent → WSState
  | [] => s
  | e :: es => run (step s e).1 es

/-- The reconnects scheduled along an event sequence, in order. -/
def traceSchedules (s : WSState) : List WSEvent → List (Option Nat)
  | [] => []
  | e :: es => (step s e).2 :: traceSchedules (step s e).1 es

/-! Message handler installed by `connectAudioWS` (`ws.onmessage`). -/

/-- Payload of a received WebSocket message: a binary `ArrayBuffer` or
anything else (e.g. a text frame), which fails the
`buf instanceof ArrayBuffer` test. -/
inductive MsgData where
  | binary (buf : List Nat)
  | other
  deriving DecidableEq, Repr

/-- Observable outcome of one `onmessage` invocation: the frame passed to
`onFrame` if it was invoked (it is invoked at most once per message), and
whether the handler closed the WebSocket. -/
structure HandlerResult where
  delivered : Option AVFrame
  closed : Bool
  deriving DecidableEq, Repr

/-- Shallow embedding of the `ws.onmessage` handler: non-`ArrayBuffer` data is
ignored; otherwise the frame is parsed and passed to `onFrame`; any exception
(bad magic, truncated frame) is swallowed by the empty `catch`.  The handler
body contains no call that closes the socket, so `closed` is always
`false`. -/
def onMessage (data : MsgData) : HandlerResult :=
  match data with
  | MsgData.other => { delivered := none, closed := false }
  | MsgData.binary buf =>
    match parseAVF1 buf with
    | some fr => { delivered := some fr, closed := false }
    | none => { delivered := none, closed := false }

/-! FFT-size inference of `TunnelWarpWebGL.onFrame`
(`src/unnamed/part_002`, lines 173-174). -/

/-- JavaScript `a || b` on an optional number: `b` when `a` is absent or 0
(falsy), else the value of `a`. -/
def jsOr (a : Option Nat) (b : Nat) : Nat :=
  match a with
  | some n => if n = 0 then b else n
  | none => b

/-- Embedding of
`const nfft = frame?.fftSize || (spec?.length ? (spec.length - 1) * 2 : 2048)`:
the frame's `fftSize` if present and nonzero, else `(L - 1) * 2` for a present
spectrum of truthy (nonzero) length `L`, else 2048. -/
def inferNfft (fftSize : Option Nat) (specLen : Option Nat) : Nat :=
  jsOr fftSize
    (match specLen with
     | some lng => if lng = 0 then 2048 else (lng - 1) * 2
     | none => 2048)

/-! Visualizer registry (`src/static/js/visualizers/registry.js`). -/

/-- The nine visualizer classes `ensureLoaded` registers, as an enumeration. -/
inductive VizClass where
  | spectrum2D
  | oscilloscope2D
  | spectrogram2D
  | vectorscope2D
  | chromaRing2D
  | plasmaWebGL
  | feedbackMirrorWebGL
  | tunnelWarpWebGL
  | particleSwarmWebGL2
  deriving DecidableEq, Repr

/-- The `static id` member of each visualizer class, read from the class
declarations in the source files. -/
def vizId : VizClass → String
  | VizClass.spectrum2D => "spectrum"
  | VizClass.oscilloscope2D => "oscilloscope"
  | VizClass.spectrogram2D => "spectrogram"
  | VizClass.vectorscope2D => "vectorscope"
  | VizClass.chromaRing2D => "chroma"
  | VizClass.plasmaWebGL => "plasma"
  | VizClass.feedbackMirrorWebGL => "feedback"
  | VizClass.tunnelWarpWebGL => "tunnel"
  | VizClass.particleSwarmWebGL2 => "swarm"

/-- Registration order of `ensureLoaded`. -/
def registryOrder : List VizClass :=
  [VizClass.spectrum2D, VizClass.oscilloscope2D, VizClass.spectrogram2D,
   VizClass.vectorscope2D, VizClass.chromaRing2D, VizClass.plasmaWebGL,
   VizClass.feedbackMirrorWebGL, VizClass.tunnelWarpWebGL,
   VizClass.particleSwarmWebGL2]

/-- JavaScript `Map.set` on an insertion-ordered association list: replace in
place if the key exists, else append. -/
def mapSet : List (String × VizClass) → String → VizClass → List (String × VizClass)
  | [], k, v => [(k, v)]
  | p :: rest, k, v =>
    if p.1 = k then (k, v) :: rest else p :: mapSet rest k v

/-- The registry map after `ensureLoaded`: each class registered under its
`static id` (`register(V)` is `this._map.set(V.id, V)`). -/
def registryMap : List (String × VizClass) :=
  registryOrder.foldl (fun m V => mapSet m (vizId V) V) []

/-- JavaScript `Map.get` on the association list. -/
def registryGet (m : List (String × VizClass)) (id : String) : Option VizClass :=
  match m with
  | [] => none
  | p :: rest => if p.1 = id then some p.2 else registryGet rest id

/-- Embedding of `createVisualizer(id, canvas)`: look `id` up in the loaded
registry, fall back to the `spectrum` entry, and construct the resulting
class (the result models the class of the constructed instance; `none` would
be the `TypeError` of constructing `undefined`). -/
def createVisualizer (id : String) : Option VizClass :=
  match registryGet registryMap id with
  | some V => some V
  | none => registryGet registryMap "spectrum"

/-! Byte-level lemmas about the little-endian encode/decode primitives. -/

theorem bytesLE_length (n w : Nat) : (bytesLE n w).length = n := by
  induction n generalizing w with
  | zero => rfl
  | succ n ih => simp [bytesLE, ih]

theorem lePack_bytesLE (n w : Nat) : lePack (bytesLE n w) = w % 256 ^ n := by
  induction n generalizing w with
  | zero => simp [bytesLE, lePack, Nat.mod_one]
  | succ n ih =>
    have hmul : w % (256 * 256 ^ n) = w % 256 + 256 * (w / 256 % 256 ^ n) :=
      Nat.mod_mul
    calc lePack (bytesLE (n + 1) w)
        = w % 256 % 256 + 256 * lePack (bytesLE n (w / 256)) := rfl
      _ = w % 256 + 256 * (w / 256 % 256 ^ n) := by
          rw [Nat.mod_mod_of_dvd _ dvd_rfl, ih]
      _ = w % 256 ^ (n + 1) := by rw [pow_succ, mul_comm (256 ^ n) 256, hmul]

theorem lePack_bytesLE_of_lt (n w : Nat) (h : w < 256 ^ n) :
    lePack (bytesLE n w) = w := by
  rw [lePack_bytesLE, Nat.mod_eq_of_lt h]

theorem f32s_length (ws : List Nat) : (f32s ws).length = 4 * ws.length := by
  induction ws with
  | nil => rfl
  | cons w ws ih => simp [f32s, ih, bytesLE_length]; omega

theorem getUintLE_at (pre mid post : List Nat) (n : Nat) (h : mid.length = n) :
    getUintLE (pre ++ mid ++ post) pre.length n = some (lePack mid) := by
  have hcond : pre.length + n ≤ (pre ++ mid ++ post).length := by
    simp [List.length_append, h]
  have hdrop : (pre ++ mid ++ post).drop pre.length = mid ++ post := by
    rw [List.append_assoc]; exact List.drop_left pre (mid ++ post)
  have htake : (mid ++ post).take n = mid := by
    rw [← h]; exact List.take_left mid post
  simp only [getUintLE, readBytes, if_pos hcond, hdrop, htake, Option.map_some']

theorem readF32s_at (pre post ws : List Nat) (hw : ∀ x ∈ ws, x < 2 ^ 32) :
    readF32s (pre ++ f32s ws ++ post) pre.length ws.length = some ws := by
  induction ws generalizing pre with
  | nil => simp [f32s, readF32s]
  | cons w ws ih =>
    have hw0 : w < 256 ^ 4 := by
      have := hw w (by simp)
      norm_num at this ⊢
      omega
    have hhead :
        getUintLE (pre ++ f32s (w :: ws) ++ post) pre.length 4 = some w := by
      have h := getUintLE_at pre (bytesLE 4 w) (f32s ws ++ post) 4 (bytesLE_length 4 w)
      rw [lePack_bytesLE_of_lt 4 w hw0] at h
      simpa [f32s, List.append_assoc] using h
    have hrest :
        readF32s (pre ++ f32s (w :: ws) ++ post) (pre.length + 4) ws.length =
          some ws := by
      have h := ih (pre ++ bytesLE 4 w) (fun x hx => hw x (by simp [hx]))
      have hlen : (pre ++ bytesLE 4 w).length = pre.length + 4 := by
        simp [List.length_append, bytesLE_length]
      rw [hlen] at h
      simpa [f32s, List.append_assoc] using h
    show readF32s (pre ++ f32s (w :: ws) ++ post) pre.length (ws.length + 1) = _
    rw [readF32s, hhead, hrest]

theorem packWords4_f32s (ws : List Nat) (hw : ∀ x ∈ ws, x < 2 ^ 32) :
    packWords4 (f32s ws) = ws := by
  induction ws with
  | nil => rfl
  | cons w ws ih =>
    have hw0 : w < 256 ^ 4 := by
      have := hw w (by simp)
      norm_num at this ⊢
      omega
    have hb : bytesLE 4 w =
        w % 256 :: w / 256 % 256 :: w / 256 / 256 % 256 ::
          w / 256 / 256 / 256 % 256 :: [] := rfl
    have hpk : lePack [w % 256, w / 256 % 256, w / 256 / 256 % 256,
        w / 256 / 256 / 256 % 256] = w := by
      rw [show ([w % 256, w / 256 % 256, w / 256 / 256 % 256,
            w / 256 / 256 / 256 % 256] : List Nat) = bytesLE 4 w from rfl]
      exact lePack_bytesLE_of_lt 4 w hw0
    calc packWords4 (f32s (w :: ws))
        = packWords4 (bytesLE 4 w ++ f32s ws) := rfl
      _ = lePack [w % 256, w / 256 % 256, w / 256 / 256 % 256,
            w / 256 / 256 / 256 % 256] :: packWords4 (f32s ws) := by
          rw [hb]; rfl
      _ = w :: ws := by
          rw [hpk, ih (fun x hx => hw x (by simp [hx]))]

theorem float32View_at (pre post ws : List Nat) (h4 : pre.length % 4 = 0)
    (hw : ∀ x ∈ ws, x < 2 ^ 32) :
    float32View (pre ++ f32s ws ++ post) pre.length ws.length = some ws := by
  have hcond : pre.length + 4 * ws.length ≤ (pre ++ f32s ws ++ post).length := by
    simp [List.length_append, f32s_length]
  have hdrop : (pre ++ f32s ws ++ post).drop pre.length = f32s ws ++ post := by
    rw [List.append_assoc]; exact List.drop_left pre (f32s ws ++ post)
  have htake : (f32s ws ++ post).take (4 * ws.length) = f32s ws := by
    rw [← f32s_length]; exact List.take_left (f32s ws) post
  simp only [float32View, if_pos h4, readBytes, if_pos hcond, hdrop, htake,
    Option.map_some', packWords4_f32s ws hw]

theorem headerBytes_length (w : WireFrame) : (headerBytes w).length = 24 := by
  simp [headerBytes, List.length_append, bytesLE_length]

theorem pow256_4 : (256 : Nat) ^ 4 = 2 ^ 32 := by norm_num

theorem pow256_8 : (256 : Nat) ^ 8 = 2 ^ 64 := by norm_num

theorem pow256_2 : (256 : Nat) ^ 2 = 2 ^ 16 := by norm_num

theorem headerReads (w : WireFrame) (tail : List Nat)
    (hfid : w.frameId < 2 ^ 32) (hts : w.ts < 2 ^ 64) (hch : w.channels < 2 ^ 16)
    (htd : w.tdLen < 2 ^ 16) (hsp : w.spLen < 2 ^ 16) :
    magicOk (headerBytes w ++ tail) = true ∧
    getUintLE (headerBytes w ++ tail) 4 4 = some w.frameId ∧
    getUintLE (headerBytes w ++ tail) 8 8 = some w.ts ∧
    getUintLE (headerBytes w ++ tail) 16 2 = some w.channels ∧
    getUintLE (headerBytes w ++ tail) 18 2 = some w.tdLen ∧
    getUintLE (headerBytes w ++ tail) 20 2 = some w.spLen := by
  have m0 : getUintLE (headerBytes w ++ tail) 0 1 = some 65 := by
    have h := getUintLE_at [] [65]
      ([86, 70, 49] ++ bytesLE 4 w.frameId ++ bytesLE 8 w.ts ++
        bytesLE 2 w.channels ++ bytesLE 2 w.tdLen ++ bytesLE 2 w.spLen ++
        bytesLE 2 w.reserved ++ tail) 1 rfl
    simpa [headerBytes, List.append_assoc, lePack] using h
  have m1 : getUintLE (headerBytes w ++ tail) 1 1 = some 86 := by
    have h := getUintLE_at [65] [86]
      ([70, 49] ++ bytesLE 4 w.frameId ++ bytesLE 8 w.ts ++
        bytesLE 2 w.channels ++ bytesLE 2 w.tdLen ++ bytesLE 2 w.spLen ++
        bytesLE 2 w.reserved ++ tail) 1 rfl
    simpa [headerBytes, List.append_assoc, lePack] using h
  have m2 : getUintLE (headerBytes w ++ tail) 2 1 = some 70 := by
    have h := getUintLE_at [65, 86] [70]
      ([49] ++ bytesLE 4 w.frameId ++ bytesLE 8 w.ts ++
        bytesLE 2 w.channels ++ bytesLE 2 w.tdLen ++ bytesLE 2 w.spLen ++
        bytesLE 2 w.reserved ++ tail) 1 rfl
    simpa [headerBytes, List.append_assoc, lePack] using h
  have m3 : getUintLE (headerBytes w ++ tail) 3 1 = some 49 := by
    have h := getUintLE_at [65, 86, 70] [49]
      (bytesLE 4 w.frameId ++ bytesLE 8 w.ts ++
        bytesLE 2 w.channels ++ bytesLE 2 w.tdLen ++ bytesLE 2 w.spLen ++
        bytesLE 2 w.reserved ++ tail) 1 rfl
    simpa [headerBytes, List.append_assoc, lePack] using h
  have e4 : getUintLE (headerBytes w ++ tail) 4 4 = some w.frameId := by
    have h := getUintLE_at [65, 86, 70, 49] (bytesLE 4 w.frameId)
      (bytesLE 8 w.ts ++ bytesLE 2 w.channels ++ bytesLE 2 w.tdLen ++
        bytesLE 2 w.spLen ++ bytesLE 2 w.reserved ++ tail) 4
      (bytesLE_length 4 w.frameId)
    rw [lePack_bytesLE_of_lt 4 w.frameId (by rw [pow256_4]; exact hfid)] at h
    simpa [headerBytes, List.append_assoc] using h
  have e8 : getUintLE (headerBytes w ++ tail) 8 8 = some w.ts := by
    have h := getUintLE_at ([65, 86, 70, 49] ++ bytesLE 4 w.frameId)
      (bytesLE 8 w.ts)
      (bytesLE 2 w.channels ++ bytesLE 2 w.tdLen ++ bytesLE 2 w.spLen ++
        bytesLE 2 w.reserved ++ tail) 8 (bytesLE_length 8 w.ts)
    rw [lePack_bytesLE_of_lt 8 w.ts (by rw [pow256_8]; exact hts)] at h
    simpa [headerBytes, List.append_assoc, List.length_append, bytesLE_length]
      using h
  have e16 : getUintLE (headerBytes w ++ tail) 16 2 = some w.channels := by
    have h := getUintLE_at
      ([65, 86, 70, 49] ++ bytesLE 4 w.frameId ++ bytesLE 8 w.ts)
      (bytesLE 2 w.channels)
      (bytesLE 2 w.tdLen ++ bytesLE 2 w.spLen ++ bytesLE 2 w.reserved ++ tail)
      2 (bytesLE_length 2 w.channels)
    rw [lePack_bytesLE_of_lt 2 w.channels (by rw [pow256_2]; exact hch)] at h
    simpa [headerBytes, List.append_assoc, List.length_append, bytesLE_length]
      using h
  have e18 : getUintLE (headerBytes w ++ tail) 18 2 = some w.tdLen := by
    have h := getUintLE_at
      ([65, 86, 70, 49] ++ bytesLE 4 w.frameId ++ bytesLE 8 w.ts ++
        bytesLE 2 w.channels)
      (bytesLE 2 w.tdLen)
      (bytesLE 2 w.spLen ++ bytesLE 2 w.reserved ++ tail)
      2 (bytesLE_length 2 w.tdLen)
    rw [lePack_bytesLE_of_lt 2 w.tdLen (by rw [pow256_2]; exact htd)] at h
    simpa [headerBytes, List.append_assoc, List.length_append, bytesLE_length]
      using h
  have e20 : getUintLE (headerBytes w ++ tail) 20 2 = some w.spLen := by
    have h := getUintLE_at
      ([65, 86, 70, 49] ++ bytesLE 4 w.frameId ++ bytesLE 8 w.ts ++
        bytesLE 2 w.channels ++ bytesLE 2 w.tdLen)
      (bytesLE 2 w.spLen)
      (bytesLE 2 w.reserved ++ tail)
      2 (bytesLE_length 2 w.spLen)
    rw [lePack_bytesLE_of_lt 2 w.spLen (by rw [pow256_2]; exact hsp)] at h
    simpa [headerBytes, List.append_assoc, List.length_append, bytesLE_length]
      using h
  have hm : magicOk (headerBytes w ++ tail) = true := by
    simp only [magicOk, m0, m1, m2, m3]
  exact ⟨hm, e4, e8, e16, e18, e20⟩

theorem encodeWire_split (w : WireFrame) :
    encodeWire w = headerBytes w ++
      (f32s w.rms ++ (f32s w.peak ++ (bytesLE 4 w.corr ++
        (f32s w.timeDomain ++ f32s w.spectrum)))) := by
  simp [encodeWire, List.append_assoc]

/-- Central decode-of-encode lemma: on a well-formed wire frame, `parseAVF1`
recovers every field of the encoded layout exactly, mapping a NaN correlation
pattern to `none`. -/
theorem parseAVF1_encodeWire (w : WireFrame) (hw : wireWF w) :
    parseAVF1 (encodeWire w) =
      some { frameId := w.frameId, ts := w.ts, channels := w.channels,
             rms := w.rms, peak := w.peak,
             corr := if isNaN32 w.corr then none else some w.corr,
             timeDomain := w.timeDomain, spectrum := w.spectrum } := by
  obtain ⟨hfid, hts, hch, htd, hsp, hres, hrl, hrb, hpl, hpb, hcorr, htl, htb,
    hsl, hsb⟩ := hw
  obtain ⟨hm, e4, e8, e16, e18, e20⟩ := headerReads w
    (f32s w.rms ++ (f32s w.peak ++ (bytesLE 4 w.corr ++
      (f32s w.timeDomain ++ f32s w.spectrum)))) hfid hts hch htd hsp
  rw [← encodeWire_split] at hm e4 e8 e16 e18 e20
  have hrms : readF32s (encodeWire w) rmsOffset w.channels = some w.rms := by
    have h := readF32s_at (headerBytes w)
      (f32s w.peak ++ bytesLE 4 w.corr ++ f32s w.timeDomain ++ f32s w.spectrum)
      w.rms hrb
    rw [headerBytes_length, hrl] at h
    simpa [encodeWire, List.append_assoc, rmsOffset] using h
  have hpeak : readF32s (encodeWire w) (peakOffset w.channels) w.channels =
      some w.peak := by
    have h := readF32s_at (headerBytes w ++ f32s w.rms)
      (bytesLE 4 w.corr ++ f32s w.timeDomain ++ f32s w.spectrum) w.peak hpb
    rw [List.length_append, headerBytes_length, f32s_length, hrl, hpl] at h
    simpa [encodeWire, List.append_assoc, peakOffset] using h
  have hcorrR : getUintLE (encodeWire w) (corrOffset w.channels) 4 =
      some w.corr := by
    have h := getUintLE_at (headerBytes w ++ f32s w.rms ++ f32s w.peak)
      (bytesLE 4 w.corr) (f32s w.timeDomain ++ f32s w.spectrum) 4
      (bytesLE_length 4 w.corr)
    rw [lePack_bytesLE_of_lt 4 w.corr (by rw [pow256_4]; exact hcorr)] at h
    rw [List.length_append, List.length_append, headerBytes_length,
      f32s_length, f32s_length, hrl, hpl] at h
    have hoff : 24 + 4 * w.channels + 4 * w.channels = corrOffset w.channels := by
      simp [corrOffset]; omega
    rw [hoff] at h
    simpa [encodeWire, List.append_assoc] using h
  have htdR : float32View (encodeWire w) (tdOffset w.channels)
      (w.tdLen * w.channels) = some w.timeDomain := by
    have hprelen :
        (headerBytes w ++ f32s w.rms ++ f32s w.peak ++ bytesLE 4 w.corr).length =
          tdOffset w.channels := by
      simp [List.length_append, headerBytes_length, f32s_length, bytesLE_length,
        hrl, hpl, tdOffset]
      omega
    have h := float32View_at
      (headerBytes w ++ f32s w.rms ++ f32s w.peak ++ bytesLE 4 w.corr)
      (f32s w.spectrum) w.timeDomain (by rw [hprelen]; simp [tdOffset]; omega)
      htb
    rw [hprelen, htl] at h
    simpa [encodeWire, List.append_assoc] using h
  have hspR : float32View (encodeWire w) (spOffset w.channels w.tdLen)
      w.spLen = some w.spectrum := by
    have hprelen :
        (headerBytes w ++ f32s w.rms ++ f32s w.peak ++ bytesLE 4 w.corr ++
          f32s w.timeDomain).length = spOffset w.channels w.tdLen := by
      simp [List.length_append, headerBytes_length, f32s_length, bytesLE_length,
        hrl, hpl, htl, spOffset]
      omega
    have h := float32View_at
      (headerBytes w ++ f32s w.rms ++ f32s w.peak ++ bytesLE 4 w.corr ++
        f32s w.timeDomain)
      [] w.spectrum (by rw [hprelen]; simp [spOffset]; omega) hsb
    rw [hprelen, hsl] at h
    simpa [encodeWire, List.append_assoc] using h
  simp only [parseAVF1, hm, if_true, e4, e8, e16, e18, e20, hrms, hpeak,
    hcorrR, htdR, hspR]

/-- C1: for every buffer laid out as a section-6 wire frame (magic `AVF1`,
little-endian uint32 frameId, float64 timestamp, uint16 channels C, uint16
timeDomainLen, uint16 spectrumLen, uint16 reserved, C rms float32s, C peak
float32s, one correlation float32, timeDomainLen x C interleaved time-domain
float32s, spectrumLen spectrum float32s), `parseAVF1` returns an object whose
frameId, ts, channels, rms (length C), peak (length C), timeDomain (length
timeDomainLen x C) and spectrum (length spectrumLen) equal exactly the values
encoded at those positions. -/
theorem parseAVF1_decodes_wire_layout (w : WireFrame) (hw : wireWF w) :
    ∃ fr, parseAVF1 (encodeWire w) = some fr ∧
      fr.frameId = w.frameId ∧ fr.ts = w.ts ∧ fr.channels = w.channels ∧
      fr.rms = w.rms ∧ fr.rms.length = w.channels ∧
      fr.peak = w.peak ∧ fr.peak.length = w.channels ∧
      fr.timeDomain = w.timeDomain ∧
      fr.timeDomain.length = w.tdLen * w.channels ∧
      fr.spectrum = w.spectrum ∧ fr.spectrum.length = w.spLen := by
  obtain ⟨hfid, hts, hch, htd, hsp, hres, hrl, hrb, hpl, hpb, hcorr, htl, htb,
    hsl, hsb⟩ := hw
  refine ⟨_, parseAVF1_encodeWire w ⟨hfid, hts, hch, htd, hsp, hres, hrl, hrb,
    hpl, hpb, hcorr, htl, htb, hsl, hsb⟩,
    rfl, rfl, rfl, rfl, hrl, rfl, hpl, rfl, htl, rfl, hsl⟩

theorem parseAVF1_decodes_wire_layout_witness :
    ∃ fr, parseAVF1 (encodeWire
        { frameId := 7, ts := 9, channels := 1, tdLen := 2, spLen := 3,
          reserved := 0, rms := [10], peak := [20], corr := 5,
          timeDomain := [1, 2], spectrum := [3, 4, 5] }) = some fr ∧
      fr.frameId = 7 ∧ fr.ts = 9 ∧ fr.channels = 1 ∧
      fr.rms = [10] ∧ fr.rms.length = 1 ∧
      fr.peak = [20] ∧ fr.peak.length = 1 ∧
      fr.timeDomain = [1, 2] ∧ fr.timeDomain.length = 2 * 1 ∧
      fr.spectrum = [3, 4, 5] ∧ fr.spectrum.length = 3 :=
  parseAVF1_decodes_wire_layout
    { frameId := 7, ts := 9, channels := 1, tdLen := 2, spLen := 3,
      reserved := 0, rms := [10], peak := [20], corr := 5,
      timeDomain := [1, 2], spectrum := [3, 4, 5] } (by decide)

/-- C3: round-trip: for every `AnalysisSnapshot` with finite (non-NaN) values
and arbitrary channel count C >= 1, timeDomainLen and spectrumLen, encoding it
into the section-6 wire layout and then decoding with `parseAVF1` yields the
identical rms, peak, correlation, timeDomain and spectrum values: decode is a
left inverse of the specified encoding. -/
theorem decode_encode_roundtrip (s : AnalysisSnapshot) (hs : snapWF s)
    (hfin : isNaN32 s.corr = false) :
    ∃ fr, parseAVF1 (encodeSnapshot s) = some fr ∧
      fr.rms = s.rms ∧ fr.peak = s.peak ∧ fr.corr = some s.corr ∧
      fr.timeDomain = s.timeDomain ∧ fr.spectrum = s.spectrum := by
  obtain ⟨hc1, hw⟩ := hs
  have h := parseAVF1_encodeWire (snapToWire s) hw
  rw [encodeSnapshot]
  refine ⟨_, h, rfl, rfl, ?_, rfl, rfl⟩
  show (if isNaN32 (snapToWire s).corr then none else some (snapToWire s).corr)
      = some s.corr
  simp [snapToWire, hfin]

theorem decode_encode_roundtrip_witness :
    ∃ fr, parseAVF1 (encodeSnapshot
        { frameId := 3, ts := 11, channels := 2, tdLen := 2, spLen := 2,
          rms := [6, 7], peak := [8, 9], corr := 12,
          timeDomain := [1, 2, 3, 4], spectrum := [5, 6] }) = some fr ∧
      fr.rms = [6, 7] ∧ fr.peak = [8, 9] ∧ fr.corr = some 12 ∧
      fr.timeDomain = [1, 2, 3, 4] ∧ fr.spectrum = [5, 6] :=
  decode_encode_roundtrip
    { frameId := 3, ts := 11, channels := 2, tdLen := 2, spLen := 2,
      rms := [6, 7], peak := [8, 9], corr := 12,
      timeDomain := [1, 2, 3, 4], spectrum := [5, 6] } (by decide) (by decide)

/-- C4: for every well-formed wire frame, the decoded `corr` field of
`parseAVF1` is `null` (`none`) iff the encoded float32 correlation is a
not-a-number pattern; otherwise `corr` equals the decoded float32 value. -/
theorem corr_null_iff_nan (w : WireFrame) (hw : wireWF w) :
    ∃ fr, parseAVF1 (encodeWire w) = some fr ∧
      (fr.corr = none ↔ isNaN32 w.corr = true) ∧
      (isNaN32 w.corr = false → fr.corr = some w.corr) := by
  refine ⟨_, parseAVF1_encodeWire w hw, ?_, ?_⟩
  · cases h : isNaN32 w.corr <;> simp [h]
  · intro h; simp [h]

theorem corr_null_iff_nan_witness :
    isNaN32 2143289344 = true ∧
    ∃ fr, parseAVF1 (encodeWire
        { frameId := 1, ts := 2, channels := 1, tdLen := 1, spLen := 1,
          reserved := 0, rms := [3], peak := [4], corr := 2143289344,
          timeDomain := [5], spectrum := [6] }) = some fr ∧
      (fr.corr = none ↔ isNaN32 2143289344 = true) ∧
      (isNaN32 2143289344 = false → fr.corr = some 2143289344) :=
  ⟨by decide, corr_null_iff_nan
    { frameId := 1, ts := 2, channels := 1, tdLen := 1, spLen := 1,
      reserved := 0, rms := [3], peak := [4], corr := 2143289344,
      timeDomain := [5], spectrum := [6] } (by decide)⟩

theorem getUintLE_isSome (buf : List Nat) (off n : Nat)
    (h : off + n ≤ buf.length) : (getUintLE buf off n).isSome = true := by
  simp [getUintLE, readBytes, h]

theorem readF32s_isSome (buf : List Nat) (off n : Nat)
    (h : off + 4 * n ≤ buf.length) : (readF32s buf off n).isSome = true := by
  induction n generalizing off with
  | zero => simp [readF32s]
  | succ n ih =>
    obtain ⟨w, hwEq⟩ := Option.isSome_iff_exists.mp
      (getUintLE_isSome buf off 4 (by omega))
    obtain ⟨ws, hwsEq⟩ := Option.isSome_iff_exists.mp
      (ih (off + 4) (by omega))
    rw [readF32s, hwEq, hwsEq]
    rfl

theorem float32View_isSome (buf : List Nat) (off len : Nat)
    (h4 : off % 4 = 0) (h : off + 4 * len ≤ buf.length) :
    (float32View buf off len).isSome = true := by
  simp [float32View, h4, readBytes, h]

/-- C5: the byte offsets at which `parseAVF1` reads the rms, peak,
correlation, timeDomain and spectrum blocks are functions of the header
counts (channels `c`, timeDomainLen `td`, spectrumLen `sp`) alone and never
of any field's value; the `Float32Array` view offsets `28 + 8c` and
`28 + 8c + 4 * td * c` are multiples of 4, so on a buffer of (at least) the
specified total size the zero-copy views cannot fail with an alignment or
range error and the whole parse succeeds. -/
theorem parse_offsets_count_determined (buf : List Nat) (c td sp : Nat)
    (hm : magicOk buf = true)
    (hc : getUintLE buf 16 2 = some c)
    (htdh : getUintLE buf 18 2 = some td)
    (hsph : getUintLE buf 20 2 = some sp)
    (hlen : totalSize c td sp ≤ buf.length) :
    rmsOffset = 24 ∧ peakOffset c = 24 + 4 * c ∧ corrOffset c = 24 + 8 * c ∧
    tdOffset c = 24 + 8 * c + 4 ∧
    spOffset c td = tdOffset c + 4 * (td * c) ∧
    tdOffset c % 4 = 0 ∧ spOffset c td % 4 = 0 ∧
    (parseAVF1 buf).isSome = true := by
  have hL : 28 + 8 * c + 4 * (td * c) + 4 * sp ≤ buf.length := by
    simpa [totalSize, spOffset] using hlen
  obtain ⟨fid, hfid⟩ := Option.isSome_iff_exists.mp
    (getUintLE_isSome buf 4 4 (by omega))
  obtain ⟨tsv, htsv⟩ := Option.isSome_iff_exists.mp
    (getUintLE_isSome buf 8 8 (by omega))
  obtain ⟨rms, hrms⟩ := Option.isSome_iff_exists.mp
    (readF32s_isSome buf rmsOffset c (by simp only [rmsOffset]; omega))
  obtain ⟨peak, hpeak⟩ := Option.isSome_iff_exists.mp
    (readF32s_isSome buf (peakOffset c) c (by simp only [peakOffset]; omega))
  obtain ⟨corrW, hcorrW⟩ := Option.isSome_iff_exists.mp
    (getUintLE_isSome buf (corrOffset c) 4 (by simp only [corrOffset]; omega))
  obtain ⟨tdv, htdv⟩ := Option.isSome_iff_exists.mp
    (float32View_isSome buf (tdOffset c) (td * c)
      (by simp only [tdOffset]; omega) (by simp only [tdOffset]; omega))
  obtain ⟨spv, hspv⟩ := Option.isSome_iff_exists.mp
    (float32View_isSome buf (spOffset c td) sp
      (by simp only [spOffset]; omega) (by simp only [spOffset]; omega))
  refine ⟨rfl, rfl, rfl, by simp only [tdOffset]; omega, rfl,
    by simp only [tdOffset]; omega, by simp only [spOffset]; omega, ?_⟩
  simp only [parseAVF1, hm, if_true, hfid, htsv, hc, htdh, hsph, hrms, hpeak,
    hcorrW, htdv, hspv]
  rfl

theorem parse_offsets_count_determined_witness :
    rmsOffset = 24 ∧ peakOffset 1 = 24 + 4 * 1 ∧ corrOffset 1 = 24 + 8 * 1 ∧
    tdOffset 1 = 24 + 8 * 1 + 4 ∧
    spOffset 1 0 = tdOffset 1 + 4 * (0 * 1) ∧
    tdOffset 1 % 4 = 0 ∧ spOffset 1 0 % 4 = 0 ∧
    (parseAVF1 ([65, 86, 70, 49] ++ List.replicate 12 0 ++ [1] ++
      List.replicate 19 0)).isSome = true :=
  parse_offsets_count_determined
    ([65, 86, 70, 49] ++ List.replicate 12 0 ++ [1] ++ List.replicate 19 0)
    1 0 0 (by decide) (by decide) (by decide) (by decide) (by decide)

theorem readBytes_congr (b1 b2 : List Nat) (hlen : b1.length = b2.length)
    (off n : Nat) (h : ∀ j, j < n → b1[off + j]? = b2[off + j]?) :
    readBytes b1 off n = readBytes b2 off n := by
  unfold readBytes
  rw [hlen]
  by_cases hc : off + n ≤ b2.length
  · rw [if_pos hc, if_pos hc]
    have he : (b1.drop off).take n = (b2.drop off).take n := by
      apply List.ext_getElem?
      intro j
      by_cases hj : j < n
      · rw [List.getElem?_take_of_lt hj, List.getElem?_take_of_lt hj,
          List.getElem?_drop, List.getElem?_drop]
        exact h j hj
      · have l1 : ((b1.drop off).take n).length ≤ j := by
          simp only [List.length_take]
          omega
        have l2 : ((b2.drop off).take n).length ≤ j := by
          simp only [List.length_take]
          omega
        rw [List.getElem?_eq_none l1, List.getElem?_eq_none l2]
    rw [he]
  · rw [if_neg hc, if_neg hc]

theorem getUintLE_congr (b1 b2 : List Nat) (hlen : b1.length = b2.length)
    (off n : Nat) (h : ∀ j, j < n → b1[off + j]? = b2[off + j]?) :
    getUintLE b1 off n = getUintLE b2 off n := by
  unfold getUintLE
  rw [readBytes_congr b1 b2 hlen off n h]

theorem readF32s_congr (b1 b2 : List Nat) (hlen : b1.length = b2.length)
    (off n : Nat) (h : ∀ i, off ≤ i → b1[i]? = b2[i]?) :
    readF32s b1 off n = readF32s b2 off n := by
  induction n generalizing off with
  | zero => rfl
  | succ n ih =>
    have hu : getUintLE b1 off 4 = getUintLE b2 off 4 :=
      getUintLE_congr b1 b2 hlen off 4 (fun j _ => h (off + j) (by omega))
    have hr := ih (off + 4) (fun i hi => h i (by omega))
    rw [readF32s, hu, hr, readF32s]

theorem float32View_congr (b1 b2 : List Nat) (hlen : b1.length = b2.length)
    (off len : Nat) (h : ∀ i, off ≤ i → b1[i]? = b2[i]?) :
    float32View b1 off len = float32View b2 off len := by
  unfold float32View
  rw [readBytes_congr b1 b2 hlen off (4 * len)
    (fun j _ => h (off + j) (by omega))]

/-- C6: for every two buffers of equal length that agree everywhere except
possibly at byte positions 22 and 23 (the reserved uint16 of the wire
header), `parseAVF1` returns equal results: the decoder's output does not
depend on the reserved field, which it skips without reading. -/
theorem parse_ignores_reserved (b1 b2 : List Nat)
    (hlen : b1.length = b2.length)
    (h : ∀ i, i < b1.length → i ≠ 22 → i ≠ 23 → b1[i]? = b2[i]?) :
    parseAVF1 b1 = parseAVF1 b2 := by
  have h' : ∀ i, i ≠ 22 → i ≠ 23 → b1[i]? = b2[i]? := by
    intro i h22 h23
    by_cases hi : i < b1.length
    · exact h i hi h22 h23
    · rw [List.getElem?_eq_none (by omega : b1.length ≤ i),
        List.getElem?_eq_none (by omega : b2.length ≤ i)]
  have hlo : ∀ off n, off + n ≤ 22 → getUintLE b1 off n = getUintLE b2 off n :=
    fun off n hb => getUintLE_congr b1 b2 hlen off n
      (fun j hj => h' (off + j) (by omega) (by omega))
  have hhi : ∀ i, 24 ≤ i → b1[i]? = b2[i]? :=
    fun i hi => h' i (by omega) (by omega)
  have hm : magicOk b1 = magicOk b2 := by
    unfold magicOk
    rw [hlo 0 1 (by omega), hlo 1 1 (by omega), hlo 2 1 (by omega),
      hlo 3 1 (by omega)]
  have hrmsEq : ∀ c, readF32s b1 rmsOffset c = readF32s b2 rmsOffset c :=
    fun c => readF32s_congr b1 b2 hlen rmsOffset c
      (fun i hi => hhi i (by simpa [rmsOffset] using hi))
  have hpeakEq : ∀ c, readF32s b1 (peakOffset c) c =
      readF32s b2 (peakOffset c) c :=
    fun c => readF32s_congr b1 b2 hlen (peakOffset c) c
      (fun i hi => hhi i (by simp only [peakOffset] at hi; omega))
  have hcorrEq : ∀ c, getUintLE b1 (corrOffset c) 4 =
      getUintLE b2 (corrOffset c) 4 :=
    fun c => getUintLE_congr b1 b2 hlen (corrOffset c) 4
      (fun j _ => hhi (corrOffset c + j) (by simp only [corrOffset]; omega))
  have htdEq : ∀ c k, float32View b1 (tdOffset c) k =
      float32View b2 (tdOffset c) k :=
    fun c k => float32View_congr b1 b2 hlen (tdOffset c) k
      (fun i hi => hhi i (by simp only [tdOffset] at hi; omega))
  have hspEq : ∀ c t k, float32View b1 (spOffset c t) k =
      float32View b2 (spOffset c t) k :=
    fun c t k => float32View_congr b1 b2 hlen (spOffset c t) k
      (fun i hi => hhi i (by simp only [spOffset] at hi; omega))
  simp only [parseAVF1, hm, hlo 4 4 (by omega), hlo 8 8 (by omega),
    hlo 16 2 (by omega), hlo 18 2 (by omega), hlo 20 2 (by omega),
    hrmsEq, hpeakEq, hcorrEq, htdEq, hspEq]

theorem parse_ignores_reserved_witness :
    parseAVF1 [65, 86, 70, 49, 0, 0, 0, 0, 0, 0, 0, 0, 0, 0, 0, 0, 1, 0,
        0, 0, 0, 0, 0, 0, 0, 0, 0, 0, 0, 0, 0, 0, 0, 0, 0, 0] =
      parseAVF1 [65, 86, 70, 49, 0, 0, 0, 0, 0, 0, 0, 0, 0, 0, 0, 0, 1, 0,
        0, 0, 0, 0, 9, 7, 0, 0, 0, 0, 0, 0, 0, 0, 0, 0, 0, 0] :=
  parse_ignores_reserved
    [65, 86, 70, 49, 0, 0, 0, 0, 0, 0, 0, 0, 0, 0, 0, 0, 1, 0,
      0, 0, 0, 0, 0, 0, 0, 0, 0, 0, 0, 0, 0, 0, 0, 0, 0, 0]
    [65, 86, 70, 49, 0, 0, 0, 0, 0, 0, 0, 0, 0, 0, 0, 0, 1, 0,
      0, 0, 0, 0, 9, 7, 0, 0, 0, 0, 0, 0, 0, 0, 0, 0, 0, 0]
    (by decide) (by decide)

/-- C2 counterexample: the claim says an unrecognized magic makes the client
close the WebSocket, but on the concrete bad-magic message `[0, 0, 0, 0]` the
`onmessage` handler swallows the parse error and leaves the connection open
(`closed = false`): the connection-drop part of the claim is false of the
code. -/
theorem onmessage_bad_magic_no_close :
    magicOk [0, 0, 0, 0] = false ∧
    (onMessage (MsgData.binary [0, 0, 0, 0])).closed = false := by decide

/-- C2 (amended): for every received binary message whose first 4 bytes are
not the recognized magic tag, parsing aborts (the frame is rejected) and no
frame is delivered to `onFrame`; the exception is swallowed by the empty
`catch`, so the WebSocket is NOT closed and the connection stays up. -/
theorem onmessage_bad_magic_swallowed (buf : List Nat)
    (h : magicOk buf = false) :
    parseAVF1 buf = none ∧
    onMessage (MsgData.binary buf) = { delivered := none, closed := false } := by
  have hp : parseAVF1 buf = none := by simp [parseAVF1, h]
  exact ⟨hp, by simp [onMessage, hp]⟩

theorem onmessage_bad_magic_swallowed_witness :
    parseAVF1 [1, 2, 3] = none ∧
    onMessage (MsgData.binary [1, 2, 3]) =
      { delivered := none, closed := false } :=
  onmessage_bad_magic_swallowed [1, 2, 3] (by decide)

/-- C10: for every incoming WebSocket message, the `onmessage` handler
invokes `onFrame` at most once (the `delivered` field is a single `Option`)
and only with a successfully parsed frame; non-`ArrayBuffer` data and failed
parses (bad magic, truncated frame) deliver nothing, and the handler is a
total function, so no exception propagates. -/
theorem onmessage_delivery (d : MsgData) :
    (∀ fr, (onMessage d).delivered = some fr →
      ∃ buf, d = MsgData.binary buf ∧ parseAVF1 buf = some fr) ∧
    (onMessage MsgData.other).delivered = none ∧
    (∀ buf, parseAVF1 buf = none →
      (onMessage (MsgData.binary buf)).delivered = none) := by
  refine ⟨?_, rfl, ?_⟩
  · intro fr hfr
    cases d with
    | other => simp [onMessage] at hfr
    | binary buf =>
      refine ⟨buf, rfl, ?_⟩
      cases hp : parseAVF1 buf with
      | none => simp [onMessage, hp] at hfr
      | some fr2 =>
        have : fr2 = fr := by simpa [onMessage, hp] using hfr
        rw [← this]
  · intro buf hp
    simp [onMessage, hp]

theorem onmessage_delivery_witness :
    (∃ buf, MsgData.binary (encodeWire
        { frameId := 7, ts := 9, channels := 1, tdLen := 2, spLen := 3,
          reserved := 0, rms := [10], peak := [20], corr := 5,
          timeDomain := [1, 2], spectrum := [3, 4, 5] }) =
          MsgData.binary buf ∧
      parseAVF1 buf = some
        { frameId := 7, ts := 9, channels := 1, rms := [10], peak := [20],
          corr := some 5, timeDomain := [1, 2], spectrum := [3, 4, 5] }) ∧
    (onMessage (MsgData.binary [0, 0, 0, 0])).delivered = none :=
  ⟨(onmessage_delivery (MsgData.binary (encodeWire
      { frameId := 7, ts := 9, channels := 1, tdLen := 2, spLen := 3,
        reserved := 0, rms := [10], peak := [20], corr := 5,
        timeDomain := [1, 2], spectrum := [3, 4, 5] }))).1
      { frameId := 7, ts := 9, channels := 1, rms := [10], peak := [20],
        corr := some 5, timeDomain := [1, 2], spectrum := [3, 4, 5] }
      (by decide),
   (onmessage_delivery (MsgData.binary [0, 0, 0, 0])).2.2 [0, 0, 0, 0]
      (by decide)⟩

/-- C7: for a frame carrying a spectrum of length L >= 1 and no `fftSize`
field, the tunnel visualizer infers the transform size as (L - 1) * 2, and
this inference is the exact inverse of the spectrum-length law L = N/2 + 1:
for every even N, inferring from a spectrum of length N/2 + 1 recovers N. -/
theorem tunnel_nfft_inverse (L N : Nat) (hL : 1 ≤ L) (hN : N % 2 = 0) :
    inferNfft none (some L) = (L - 1) * 2 ∧
    inferNfft none (some (N / 2 + 1)) = N := by
  constructor
  · have h0 : L ≠ 0 := by omega
    simp [inferNfft, jsOr, h0]
  · have h0 : N / 2 + 1 ≠ 0 := Nat.succ_ne_zero (N / 2)
    show (if N / 2 + 1 = 0 then 2048 else (N / 2 + 1 - 1) * 2) = N
    rw [if_neg h0, Nat.add_sub_cancel]
    omega

theorem tunnel_nfft_inverse_witness :
    inferNfft none (some 513) = (513 - 1) * 2 ∧
    inferNfft none (some (1024 / 2 + 1)) = 1024 :=
  tunnel_nfft_inverse 513 1024 (by decide) (by decide)

theorem registryGet_mem (m : List (String × VizClass)) (id : String)
    (V : VizClass) (h : registryGet m id = some V) : (id, V) ∈ m := by
  induction m with
  | nil => simp [registryGet] at h
  | cons p rest ih =>
    rw [registryGet] at h
    by_cases hp : p.1 = id
    · rw [if_pos hp] at h
      have hv : p.2 = V := by simpa using h
      have : (id, V) = p := by
        rw [← hp, ← hv]
      rw [this]
      exact List.mem_cons_self p rest
    · rw [if_neg hp] at h
      exact List.mem_cons_of_mem p (ih h)

theorem registryMap_ids : ∀ p ∈ registryMap, vizId p.2 = p.1 := by decide

/-- C8: for every id string registered in the registry, `createVisualizer`
returns the registered visualizer class, whose `static id` equals the lookup
id; for an unregistered id it falls back to the `Spectrum2D` class; and since
the loaded registry contains the `spectrum` entry it never returns
`undefined`. -/
theorem createVisualizer_spec (id : String) :
    (∀ V, registryGet registryMap id = some V →
      createVisualizer id = some V ∧ vizId V = id) ∧
    (registryGet registryMap id = none →
      createVisualizer id = some VizClass.spectrum2D) ∧
    (createVisualizer id).isSome = true := by
  refine ⟨?_, ?_, ?_⟩
  · intro V h
    refine ⟨by simp [createVisualizer, h], ?_⟩
    exact registryMap_ids (id, V) (registryGet_mem registryMap id V h)
  · intro h
    simp only [createVisualizer, h]
    decide
  · cases hg : registryGet registryMap id with
    | some V => simp [createVisualizer, hg]
    | none =>
      simp only [createVisualizer, hg]
      decide

theorem createVisualizer_spec_witness :
    (createVisualizer "tunnel" = some VizClass.tunnelWarpWebGL ∧
      vizId VizClass.tunnelWarpWebGL = "tunnel") ∧
    (createVisualizer "nope").isSome = true :=
  ⟨(createVisualizer_spec "tunnel").1 VizClass.tunnelWarpWebGL (by decide),
   (createVisualizer_spec "nope").2.2⟩

theorem run_append (s : WSState) (l1 l2 : List WSEvent) :
    run s (l1 ++ l2) = run (run s l1) l2 := by
  induction l1 generalizing s with
  | nil => rfl
  | cons e es ih => simp [run, ih]

theorem step_retry_bounds (s : WSState) (e : WSEvent)
    (h1 : 500 ≤ s.retryMs) (h2 : s.retryMs ≤ 5000) :
    500 ≤ (step s e).1.retryMs ∧ (step s e).1.retryMs ≤ 5000 := by
  cases e with
  | opened => simp [step]
  | closed =>
    by_cases ha : s.alive
    · simp only [step, if_pos ha]
      constructor
      · show 500 ≤ min 5000 (s.retryMs * 3 / 2)
        omega
      · show min 5000 (s.retryMs * 3 / 2) ≤ 5000
        omega
    · simpa [step, ha] using ⟨h1, h2⟩
  | stopped => simpa [step] using ⟨h1, h2⟩

theorem run_bounds (evs : List WSEvent) (s : WSState)
    (h1 : 500 ≤ s.retryMs) (h2 : s.retryMs ≤ 5000) :
    500 ≤ (run s evs).retryMs ∧ (run s evs).retryMs ≤ 5000 := by
  induction evs generalizing s with
  | nil => exact ⟨h1, h2⟩
  | cons e es ih =>
    obtain ⟨k1, k2⟩ := step_retry_bounds s e h1 h2
    exact ih (step s e).1 k1 k2

theorem step_dead (s : WSState) (e : WSEvent) (h : s.alive = false) :
    (step s e).1.alive = false ∧ (step s e).2 = none := by
  cases e with
  | opened => simp [step, h]
  | closed => simp [step, h]
  | stopped => simp [step]

theorem traceSchedules_dead (evs : List WSEvent) (s : WSState)
    (h : s.alive = false) :
    traceSchedules s evs = List.replicate evs.length none := by
  induction evs generalizing s with
  | nil => rfl
  | cons e es ih =>
    obtain ⟨h1, h2⟩ := step_dead s e h
    simp [traceSchedules, h2, ih _ h1, List.replicate_succ]

theorem run_stop_dead (s : WSState) (evs : List WSEvent) :
    (run s (evs ++ [WSEvent.stopped])).alive = false := by
  rw [run_append]
  simp [run, step]

/-- C9: the reconnect delay of `connectAudioWS` is invariant-bounded state:
it starts at 500 ms, every `onclose` while alive schedules the retry and then
multiplies the delay by 1.5 with flooring (`min 5000 (retryMs * 3 / 2)`,
exact integer floor of `retryMs * 1.5`), it stays within [500, 5000] along
every event sequence, `onopen` resets it to 500, and after `stop()` no
further reconnect is ever scheduled. -/
theorem reconnect_backoff_invariant (evs1 evs2 : List WSEvent) :
    initState.retryMs = 500 ∧ initState.alive = true ∧
    (∀ s, (step s WSEvent.opened).1.retryMs = 500) ∧
    (∀ s, s.alive = true →
      (step s WSEvent.closed).1.retryMs = min 5000 (s.retryMs * 3 / 2) ∧
      (step s WSEvent.closed).2 = some s.retryMs) ∧
    (500 ≤ (run initState evs1).retryMs ∧
      (run initState evs1).retryMs ≤ 5000) ∧
    traceSchedules (run initState (evs1 ++ [WSEvent.stopped])) evs2 =
      List.replicate evs2.length none := by
  refine ⟨rfl, rfl, fun s => rfl, fun s hs => ?_, ?_, ?_⟩
  · simp [step, hs]
  · exact run_bounds evs1 initState (by simp [initState]) (by simp [initState])
  · exact traceSchedules_dead evs2 _ (run_stop_dead initState evs1)

theorem reconnect_backoff_invariant_witness :
    ((step { alive := true, retryMs := 700 } WSEvent.closed).1.retryMs =
        min 5000 (700 * 3 / 2) ∧
      (step { alive := true, retryMs := 700 } WSEvent.closed).2 = some 700) ∧
    500 ≤ (run initState [WSEvent.closed, WSEvent.closed]).retryMs ∧
    traceSchedules (run initState ([WSEvent.closed] ++ [WSEvent.stopped]))
      [WSEvent.closed, WSEvent.opened] = List.replicate 2 none := by
  have h1 := reconnect_backoff_invariant [WSEvent.closed, WSEvent.closed]
    [WSEvent.closed, WSEvent.opened]
  have h2 := reconnect_backoff_invariant [WSEvent.closed]
    [WSEvent.closed, WSEvent.opened]
  exact ⟨h1.2.2.2.1 { alive := true, retryMs := 700 } rfl,
    h1.2.2.2.2.1.1, h2.2.2.2.2.2⟩

end AVF
